import Mathlib

/-!
Verification of the two example scripts of this repository:
* `examples/nlp/language_modeling/megatron_lm_ckpt_to_nemo.py`
  (checkpoint translator: key translation walk, attention-layout migration,
  optimizer-state adaptation, parallel-rank path resolution);
* `examples/nlp/machine_translation/noisy_channel_reranking.py`
  (noisy channel reranking: score fusion, beam selection, cached-score-file
  processing, argument validation).

Python strings are modelled as `List Char`, Python non-negative ints as `ℕ`,
Python floats as exact rationals `ℚ` (the arithmetic of the scripts is plain
field arithmetic), dictionaries as association lists in iteration order, and
fallible code as `Except`/`Option` values.
-/

namespace Ckpt

/-- Python `sub in s` / `s.find(sub) >= 0` on `List Char` strings:
`sub` occurs contiguously in `s`.  (For the empty pattern Python's `find`
returns `0`, i.e. an occurrence, which this definition also reports.) -/
def containsSub (sub : List Char) : List Char → Bool
  | [] => sub.isEmpty
  | c :: cs => sub.isPrefixOf (c :: cs) || containsSub sub cs

/-- Python `s.replace(pat, repl)`: replace every non-overlapping occurrence
of `pat` in `s` by `repl`, scanning left to right.  An empty pattern is
left alone (the scripts only pass non-empty patterns). -/
def replaceAll (pat repl : List Char) : List Char → List Char
  | [] => []
  | c :: cs =>
    if pat ≠ [] ∧ pat.isPrefixOf (c :: cs) then
      repl ++ replaceAll pat repl (cs.drop (pat.length - 1))
    else
      c :: replaceAll pat repl cs
termination_by s => s.length
decreasing_by
  · simp only [List.length_drop, List.length_cons]
    omega
  · simp only [List.length_cons]
    omega

/-- The per-key body of `parse_weights` (megatron_lm_ckpt_to_nemo.py,
lines 158–164): starting from `new_key = key`, each rule `(p, r)` of the
translator with `key.find(p) >= 0` overwrites `new_key` with
`key.replace(p, r)` — the replacement is computed from the ORIGINAL `key`,
not from the accumulated `new_key`. -/
def translateKey (translator : List (List Char × List Char)) (key : List Char) :
    List Char :=
  translator.foldl
    (fun new_key pr =>
      if containsSub pr.1 key then replaceAll pr.1 pr.2 key else new_key)
    key

/-- A value of the nested checkpoint dictionary: a tensor leaf is kept
abstract as its shape (`torch.prod(size())` is all `parse_weights` reads
from it) together with an identifier of the stored payload. -/
inductive WVal where
  | tensor (shape : List ℕ) (payload : ℕ)
  | node (entries : List (List Char × WVal))

/-- `parse_weights` (lines 157–171): depth-first walk of the nested weight
dictionary.  Returns the accumulated parameter count and the flat list of
`(final_key, leaf)` insertions, in source iteration order.  `total` and
`converted` are the starting accumulator values, matching the source's
in-place mutation of `total` and `converted`. -/
def parse_weights (translator : List (List Char × List Char)) :
    List (List Char × WVal) → List Char → ℕ → List (List Char × WVal) →
      ℕ × List (List Char × WVal)
  | [], _parent_key, total, converted => (total, converted)
  | (key, v) :: rest, parent_key, total, converted =>
    let new_key := translateKey translator key
    match v with
    | .node entries =>
      let (total1, converted1) :=
        parse_weights translator entries
          (parent_key ++ ('.' :: new_key)) total converted
      parse_weights translator rest parent_key total1 converted1
    | .tensor shape payload =>
      let num_parameters := shape.prod
      let final_key :=
        ('m' :: 'o' :: 'd' :: 'e' :: 'l' :: parent_key) ++ ('.' :: new_key)
      parse_weights translator rest parent_key (total + num_parameters)
        (converted ++ [(final_key, .tensor shape payload)])

/-- The GPT/BERT `name_translate` dictionary of `convert`
(lines 410–414 / 425–429), in iteration order. -/
def name_translate : List (List Char × List Char) :=
  [("transformer".toList, "encoder".toList),
   (".attention.".toList, ".self_attention.".toList),
   ("word_embeddings_for_head".toList, "word_embeddings".toList)]

/-- The last rule of `translator` whose pattern occurs in `key`, if any. -/
def lastMatchingRule (translator : List (List Char × List Char))
    (key : List Char) : Option (List Char × List Char) :=
  (translator.filter (fun pr => containsSub pr.1 key)).getLast?

theorem translateKey_foldl_aux (translator : List (List Char × List Char))
    (key : List Char) (a : List Char) :
    translator.foldl
        (fun new_key pr =>
          if containsSub pr.1 key then replaceAll pr.1 pr.2 key else new_key)
        a =
      (match (translator.filter (fun pr => containsSub pr.1 key)).getLast? with
        | none => a
        | some pr => replaceAll pr.1 pr.2 key) := by
  induction translator generalizing a with
  | nil => simp
  | cons hd tl ih =>
    simp only [List.foldl_cons, List.filter_cons]
    by_cases h : containsSub hd.1 key
    · simp only [h, if_true, ih]
      rcases h'' : tl.filter (fun pr => containsSub pr.1 key) with _ | ⟨q, qs⟩
      · rw [h'']
        rfl
      · rw [h'', List.getLast?_cons_cons]
        rcases h3 : (q :: qs).getLast? with _ | pr
        · exact absurd h3 (by simp [List.getLast?_eq_none_iff])
        · rfl
    · simp only [h, if_false, ih]
      simp [h]

/-- C1 (counterexample): in the key-translation walk, the key
`"transformer.attention.x"` contains both the pattern `"transformer"` and
the pattern `".attention."` of the GPT translation rules, yet the key
output by the walk is `"model.transformer.self_attention.x"`: it contains
only the second rule's replacement and NOT `"encoder"`, because each rule's
substitution is computed from the original key, not from the
already-substituted string.  This refutes the claim that substitutions
chain. -/
theorem parse_weights_no_chaining_counterexample :
    containsSub "transformer".toList "transformer.attention.x".toList = true ∧
    containsSub ".attention.".toList "transformer.attention.x".toList = true ∧
    ((parse_weights name_translate
        [("transformer.attention.x".toList, WVal.tensor [2] 0)] [] 0 []).2.map
          Prod.fst) =
      ["model.transformer.self_attention.x".toList] ∧
    containsSub "encoder".toList
        "model.transformer.self_attention.x".toList = false := by
  refine ⟨by decide, by decide, ?_, by decide⟩
  simp +decide [parse_weights, translateKey, name_translate, replaceAll]

/-- C1 (amended): at every node of the key-translation walk, each rule whose
pattern occurs as a substring of the key is applied to the ORIGINAL key
(all occurrences replaced), and each application overwrites the previous
result; hence the translated key equals the original key with only the LAST
matching rule applied, and substitutions do not chain. -/
theorem translateKey_eq_last_matching_rule
    (translator : List (List Char × List Char)) (key : List Char) :
    translateKey translator key =
      (match lastMatchingRule translator key with
        | none => key
        | some pr => replaceAll pr.1 pr.2 key) :=
  translateKey_foldl_aux translator key key

/-! ### Tensors and the attention-layout migration

A (contiguous) torch tensor is modelled as its row-major shape together
with the flat list of stored elements. -/

structure Tensor where
  shape : List ℕ
  data : List ℤ
  deriving DecidableEq

/-- `torch.Tensor.numel()` / `torch.prod(size())`. -/
def Tensor.numel (t : Tensor) : ℕ := t.shape.prod

/-- torch `Tensor.view(dims)` on a contiguous tensor.  A target dimension
`none` models torch's `-1` (inferred) sentinel, `some d` a fixed size.
At most one inferred dimension is allowed; the fixed sizes must divide the
element count (exactly one inferred dimension) or multiply to it (no
inferred dimension), otherwise the call fails. -/
def Tensor.view (t : Tensor) (dims : List (Option ℕ)) : Option Tensor :=
  let p := (dims.filterMap id).prod
  if (dims.filter (·.isNone)).length = 1 then
    if p ≠ 0 ∧ p ∣ t.numel then
      some ⟨dims.map (fun d => d.getD (t.numel / p)), t.data⟩
    else none
  else if (dims.filter (·.isNone)).length = 0 then
    if p = t.numel then some ⟨dims.map (fun d => d.getD 0), t.data⟩ else none
  else none

/-- Row-major flat index of a multi-index `idx` in a tensor of shape
`shape`. -/
def flatIndex : List ℕ → List ℕ → ℕ
  | [], _ => 0
  | _, [] => 0
  | _ :: dss, i :: is => i * dss.prod + flatIndex dss is

/-- Row-major multi-index of flat position `k` in shape `shape`. -/
def unflatten : List ℕ → ℕ → List ℕ
  | [], _ => []
  | _ :: dss, k => (k / dss.prod) :: unflatten dss (k % dss.prod)

/-- Swap the entries at positions `i` and `j` of a list. -/
def swapIdx (i j : ℕ) (l : List ℕ) : List ℕ :=
  (l.set i (l.getD j 0)).set j (l.getD i 0)

/-- torch `Tensor.transpose(i, j).contiguous()`: swap axes `i` and `j` and
materialise the result in row-major order.  Fails if an axis is out of
range. -/
def Tensor.transposeCont (t : Tensor) (i j : ℕ) : Option Tensor :=
  if i < t.shape.length ∧ j < t.shape.length then
    let newShape := swapIdx i j t.shape
    some ⟨newShape,
      (List.range newShape.prod).map
        (fun k => t.data.getD (flatIndex t.shape (swapIdx i j (unflatten newShape k))) 0)⟩
  else none

/-- The per-tensor transformation of the `query_key_value` branches of
`load_from_checkpoint` (megatron_lm_ckpt_to_nemo.py, lines 304–333):
* version 0, 2-D (`len(weight.size()) == 2`): `view(3, np, -1, last)`,
  `transpose(0, 1).contiguous()`, `view(-1, last)`;
* version 0, other ranks (the `else`, commented "biase"): `view(3, np, -1)`,
  `transpose(0, 1).contiguous()`, `view(-1)`;
* version 1, 2-D: `view(np, -1, 3, last)`, `transpose(1, 2).contiguous()`,
  stored as-is (4-D);
* version 1, other ranks: `view(np, -1, 3)`, `transpose(1, 2).contiguous()`,
  stored as-is (3-D);
* any other version: the tensor is left untouched. -/
def migrateQKV (check_point_version : ℕ) (np : ℕ) (weight : Tensor) :
    Option Tensor :=
  if check_point_version = 0 then
    if weight.shape.length = 2 then
      (weight.view [some 3, some np, none, some (weight.shape.getLastD 1)]).bind
        fun w1 => (w1.transposeCont 0 1).bind
        fun w2 => w2.view [none, some (w2.shape.getLastD 1)]
    else
      (weight.view [some 3, some np, none]).bind
        fun w1 => (w1.transposeCont 0 1).bind
        fun w2 => w2.view [none]
  else if check_point_version = 1 then
    if weight.shape.length = 2 then
      (weight.view [some np, none, some 3, some (weight.shape.getLastD 1)]).bind
        fun w1 => w1.transposeCont 1 2
    else
      (weight.view [some np, none, some 3]).bind
        fun w1 => w1.transposeCont 1 2
  else some weight

inductive MigrationError where
  /-- `ValueError('need to know number of attention heads')` (line 302). -/
  | missingNumHeads
  /-- a torch runtime error raised by `view`/`transpose` on an
  incompatible tensor. -/
  | shapeMismatch
  deriving DecidableEq

/-- The marker substring selecting fused query-key-value entries. -/
def qkvMarker : List Char := "query_key_value".toList

/-- The attention-layout migration of `load_from_checkpoint`
(lines 292–333), applied to the flattened state dict: for checkpoint
versions below 3 the number of attention heads must be known (else the
conversion aborts), and every entry whose key contains `query_key_value`
is rewritten by `migrateQKV`; other entries, and every entry when the
version is 3 or greater, are left untouched. -/
def migrate_state_dict (check_point_version : ℕ) (np : Option ℕ)
    (state_dict : List (List Char × Tensor)) :
    Except MigrationError (List (List Char × Tensor)) :=
  if check_point_version < 3 then
    match np with
    | none => .error .missingNumHeads
    | some heads =>
      state_dict.mapM fun kv =>
        if containsSub qkvMarker kv.1 then
          match migrateQKV check_point_version heads kv.2 with
          | some t => .ok (kv.1, t)
          | none => .error .shapeMismatch
        else .ok kv
  else .ok state_dict

theorem Tensor.view_one_none (t : Tensor) (dims : List (Option ℕ))
    (t' : Tensor) (hn : (dims.filter (·.isNone)).length = 1)
    (h : t.view dims = some t') :
    ((dims.filterMap id).prod ≠ 0 ∧ (dims.filterMap id).prod ∣ t.numel) ∧
      t' = ⟨dims.map
        (fun d => d.getD (t.numel / (dims.filterMap id).prod)), t.data⟩ := by
  unfold Tensor.view at h
  rw [if_pos hn] at h
  split at h
  · rename_i hc
    exact ⟨hc, by injection h with h; exact h.symm⟩
  · cases h

theorem Tensor.transposeCont_some (t : Tensor) (i j : ℕ) (t' : Tensor)
    (h : t.transposeCont i j = some t') :
    t'.shape = swapIdx i j t.shape ∧
      t'.data.length = (swapIdx i j t.shape).prod := by
  unfold Tensor.transposeCont at h
  split at h
  · injection h with h
    subst h
    simp
  · cases h

theorem migrateQKV_v0_weight (np : ℕ) (t t' : Tensor)
    (hinv : t.data.length = t.numel) (hrank : t.shape.length = 2)
    (h : migrateQKV 0 np t = some t') :
    t'.shape.length = 2 ∧ t'.numel = t.numel ∧
      t'.data.length = t.data.length := by
  obtain ⟨r, c, hsh⟩ := List.length_eq_two.mp hrank
  have hlast : t.shape.getLastD 1 = c := by rw [hsh]; rfl
  rw [migrateQKV, if_pos rfl, if_pos hrank, hlast] at h
  obtain ⟨w1, hv1, h⟩ := Option.bind_eq_some.mp h
  obtain ⟨w2, ht2, hv3⟩ := Option.bind_eq_some.mp h
  obtain ⟨⟨hp0, hpd⟩, hw1⟩ := Tensor.view_one_none t _ w1 (by rfl) hv1
  simp only [List.filterMap_cons, id_eq, List.filterMap_nil, List.prod_cons,
    List.prod_nil, mul_one, List.map_cons, List.map_nil, Option.getD_some,
    Option.getD_none] at hp0 hpd hw1
  subst hw1
  obtain ⟨hshw, hdlw⟩ := Tensor.transposeCont_some _ 0 1 w2 ht2
  simp only [swapIdx, List.set, List.getD, List.get?, Option.getD_some]
    at hshw hdlw
  have hlast2 : w2.shape.getLastD 1 = c := by rw [hshw]; rfl
  rw [hlast2] at hv3
  obtain ⟨⟨hq0, hqd⟩, ht'⟩ := Tensor.view_one_none w2 _ t' (by rfl) hv3
  simp only [List.filterMap_cons, id_eq, List.filterMap_nil, List.prod_cons,
    List.prod_nil, mul_one, List.map_cons, List.map_nil, Option.getD_some,
    Option.getD_none] at hq0 hqd ht'
  subst ht'
  have hw2n : w2.numel = t.numel := by
    have hstep : w2.numel = t.numel / (3 * (np * c)) * (3 * (np * c)) := by
      show w2.shape.prod = _
      rw [hshw]
      simp only [List.prod_cons, List.prod_nil, mul_one]
      ring
    rw [hstep, Nat.div_mul_cancel hpd]
  refine ⟨rfl, ?_, ?_⟩
  · show [w2.numel / c, c].prod = t.numel
    simp only [List.prod_cons, List.prod_nil, mul_one]
    rw [Nat.div_mul_cancel hqd, hw2n]
  · show w2.data.length = t.data.length
    rw [hdlw, hinv]
    have hfin : w2.shape.prod = t.numel := hw2n
    rw [hshw] at hfin
    exact hfin

theorem migrateQKV_v0_bias (np : ℕ) (t t' : Tensor)
    (hinv : t.data.length = t.numel) (hrank : t.shape.length = 1)
    (h : migrateQKV 0 np t = some t') :
    t'.shape.length = 1 ∧ t'.numel = t.numel ∧
      t'.data.length = t.data.length := by
  rw [migrateQKV, if_pos rfl, if_neg (by omega)] at h
  obtain ⟨w1, hv1, h⟩ := Option.bind_eq_some.mp h
  obtain ⟨w2, ht2, hv3⟩ := Option.bind_eq_some.mp h
  obtain ⟨⟨hp0, hpd⟩, hw1⟩ := Tensor.view_one_none t _ w1 (by rfl) hv1
  simp only [List.filterMap_cons, id_eq, List.filterMap_nil, List.prod_cons,
    List.prod_nil, mul_one, List.map_cons, List.map_nil, Option.getD_some,
    Option.getD_none] at hp0 hpd hw1
  subst hw1
  obtain ⟨hshw, hdlw⟩ := Tensor.transposeCont_some _ 0 1 w2 ht2
  simp only [swapIdx, List.set, List.getD, List.get?, Option.getD_some]
    at hshw hdlw
  obtain ⟨⟨hq0, hqd⟩, ht'⟩ := Tensor.view_one_none w2 _ t' (by rfl) hv3
  simp only [List.filterMap_cons, id_eq, List.filterMap_nil, List.prod_cons,
    List.prod_nil, mul_one, List.map_cons, List.map_nil, Option.getD_some,
    Option.getD_none, Nat.div_one] at hq0 hqd ht'
  subst ht'
  have hw2n : w2.numel = t.numel := by
    have hstep : w2.numel = t.numel / (3 * np) * (3 * np) := by
      show w2.shape.prod = _
      rw [hshw]
      simp only [List.prod_cons, List.prod_nil, mul_one]
      ring
    rw [hstep, Nat.div_mul_cancel hpd]
  refine ⟨rfl, ?_, ?_⟩
  · show [w2.numel].prod = t.numel
    simp only [List.prod_cons, List.prod_nil, mul_one]
    exact hw2n
  · show w2.data.length = t.data.length
    rw [hdlw, hinv]
    have hfin : w2.shape.prod = t.numel := hw2n
    rw [hshw] at hfin
    exact hfin

theorem migrateQKV_v1_weight (np : ℕ) (t t' : Tensor)
    (hinv : t.data.length = t.numel) (hrank : t.shape.length = 2)
    (h : migrateQKV 1 np t = some t') :
    t'.shape.length = 4 ∧ t'.numel = t.numel ∧
      t'.data.length = t.data.length := by
  obtain ⟨r, c, hsh⟩ := List.length_eq_two.mp hrank
  have hlast : t.shape.getLastD 1 = c := by rw [hsh]; rfl
  rw [migrateQKV, if_neg (by omega), if_pos rfl, if_pos hrank, hlast] at h
  obtain ⟨w1, hv1, ht2⟩ := Option.bind_eq_some.mp h
  obtain ⟨⟨hp0, hpd⟩, hw1⟩ := Tensor.view_one_none t _ w1 (by rfl) hv1
  simp only [List.filterMap_cons, id_eq, List.filterMap_nil, List.prod_cons,
    List.prod_nil, mul_one, List.map_cons, List.map_nil, Option.getD_some,
    Option.getD_none] at hp0 hpd hw1
  subst hw1
  obtain ⟨hshw, hdlw⟩ := Tensor.transposeCont_some _ 1 2 t' ht2
  simp only [swapIdx, List.set, List.getD, List.get?, Option.getD_some]
    at hshw hdlw
  have htn : t'.numel = t.numel := by
    have hstep : t'.numel = t.numel / (np * (3 * c)) * (np * (3 * c)) := by
      show t'.shape.prod = _
      rw [hshw]
      simp only [List.prod_cons, List.prod_nil, mul_one]
      ring
    rw [hstep, Nat.div_mul_cancel hpd]
  refine ⟨by rw [hshw]; rfl, htn, ?_⟩
  · rw [hdlw, hinv]
    have hfin : t'.shape.prod = t.numel := htn
    rw [hshw] at hfin
    exact hfin

theorem migrateQKV_v1_bias (np : ℕ) (t t' : Tensor)
    (hinv : t.data.length = t.numel) (hrank : t.shape.length = 1)
    (h : migrateQKV 1 np t = some t') :
    t'.shape.length = 3 ∧ t'.numel = t.numel ∧
      t'.data.length = t.data.length := by
  rw [migrateQKV, if_neg (by omega), if_pos rfl, if_neg (by omega)] at h
  obtain ⟨w1, hv1, ht2⟩ := Option.bind_eq_some.mp h
  obtain ⟨⟨hp0, hpd⟩, hw1⟩ := Tensor.view_one_none t _ w1 (by rfl) hv1
  simp only [List.filterMap_cons, id_eq, List.filterMap_nil, List.prod_cons,
    List.prod_nil, mul_one, List.map_cons, List.map_nil, Option.getD_some,
    Option.getD_none] at hp0 hpd hw1
  subst hw1
  obtain ⟨hshw, hdlw⟩ := Tensor.transposeCont_some _ 1 2 t' ht2
  simp only [swapIdx, List.set, List.getD, List.get?, Option.getD_some]
    at hshw hdlw
  have htn : t'.numel = t.numel := by
    have hstep : t'.numel = t.numel / (np * 3) * (np * 3) := by
      show t'.shape.prod = _
      rw [hshw]
      simp only [List.prod_cons, List.prod_nil, mul_one]
      ring
    rw [hstep, Nat.div_mul_cancel hpd]
  refine ⟨by rw [hshw]; rfl, htn, ?_⟩
  · rw [hdlw, hinv]
    have hfin : t'.shape.prod = t.numel := htn
    rw [hshw] at hfin
    exact hfin

theorem migrate_noop_of_version_ge_three (v : ℕ) (np : Option ℕ) (sd : List (List Char × Tensor))
    (h3 : 3 ≤ v) : migrate_state_dict v np sd = .ok sd := by
  rw [migrate_state_dict.eq_def, if_neg (by omega)]

/-- C3: for every flattened-checkpoint entry whose key contains the fused
query-key-value marker, the layout migration below version 3 behaves as
specified: under version 0 a 2-D weight (viewed as `(3, heads, -1, last)`,
leading axes transposed, made contiguous, re-flattened) keeps its rank 2
and its element count, and a 1-D bias (via `(3, heads, -1)` back to 1-D)
keeps rank 1 and its element count; under version 1 a 2-D weight is left
4-D (viewed as `(heads, -1, 3, last)` with axes 1 and 2 transposed, not
re-flattened) and a 1-D bias is left 3-D, each keeping its element count;
and for version 3 or greater no tensor is modified. -/
theorem attention_layout_migration_versions :
    (∀ (v : ℕ) (np : Option ℕ) (sd : List (List Char × Tensor)), 3 ≤ v →
        migrate_state_dict v np sd = .ok sd) ∧
    (∀ (np : ℕ) (t t' : Tensor), t.data.length = t.numel →
        t.shape.length = 2 → migrateQKV 0 np t = some t' →
        t'.shape.length = 2 ∧ t'.numel = t.numel ∧
          t'.data.length = t.data.length) ∧
    (∀ (np : ℕ) (t t' : Tensor), t.data.length = t.numel →
        t.shape.length = 1 → migrateQKV 0 np t = some t' →
        t'.shape.length = 1 ∧ t'.numel = t.numel ∧
          t'.data.length = t.data.length) ∧
    (∀ (np : ℕ) (t t' : Tensor), t.data.length = t.numel →
        t.shape.length = 2 → migrateQKV 1 np t = some t' →
        t'.shape.length = 4 ∧ t'.numel = t.numel ∧
          t'.data.length = t.data.length) ∧
    (∀ (np : ℕ) (t t' : Tensor), t.data.length = t.numel →
        t.shape.length = 1 → migrateQKV 1 np t = some t' →
        t'.shape.length = 3 ∧ t'.numel = t.numel ∧
          t'.data.length = t.data.length) :=
  ⟨migrate_noop_of_version_ge_three, migrateQKV_v0_weight, migrateQKV_v0_bias,
    migrateQKV_v1_weight, migrateQKV_v1_bias⟩

/-- Witness for C3: the no-op case at version 3, and the version-0 weight
case evaluated on a concrete `6 x 2` tensor with 2 attention heads. -/
theorem attention_layout_migration_versions_witness :
    migrate_state_dict 3 none [] = .ok [] ∧
    (⟨[6, 2], [0, 1, 2, 3, 4, 5, 6, 7, 8, 9, 10, 11]⟩ : Tensor).data.length =
        (⟨[6, 2], [0, 1, 2, 3, 4, 5, 6, 7, 8, 9, 10, 11]⟩ : Tensor).numel ∧
    (⟨[6, 2], [0, 1, 2, 3, 4, 5, 6, 7, 8, 9, 10, 11]⟩ : Tensor).shape.length
        = 2 ∧
    migrateQKV 0 2 ⟨[6, 2], [0, 1, 2, 3, 4, 5, 6, 7, 8, 9, 10, 11]⟩ =
      some ⟨[6, 2], [0, 1, 4, 5, 8, 9, 2, 3, 6, 7, 10, 11]⟩ ∧
    ((⟨[6, 2], [0, 1, 4, 5, 8, 9, 2, 3, 6, 7, 10, 11]⟩ : Tensor).shape.length
          = 2 ∧
      (⟨[6, 2], [0, 1, 4, 5, 8, 9, 2, 3, 6, 7, 10, 11]⟩ : Tensor).numel =
        (⟨[6, 2], [0, 1, 2, 3, 4, 5, 6, 7, 8, 9, 10, 11]⟩ : Tensor).numel ∧
      (⟨[6, 2],
          [0, 1, 4, 5, 8, 9, 2, 3, 6, 7, 10, 11]⟩ : Tensor).data.length =
        (⟨[6, 2],
          [0, 1, 2, 3, 4, 5, 6, 7, 8, 9, 10, 11]⟩ : Tensor).data.length) :=
  ⟨attention_layout_migration_versions.1 3 none [] (by omega),
    by decide, by decide, by decide,
    attention_layout_migration_versions.2.1 2 _ _ (by decide) (by decide)
      (by decide)⟩

/-- C4 (counterexample): a version-0 fused query-key-value tensor of rank 3
(shape `[3, 2, 2]`) is NOT rejected with an unsupported-shape failure: the
migration routes every non-rank-2 tensor through the bias branch, which
here succeeds and silently returns a rank-1 tensor of shape `[12]`. -/
theorem qkv_rank3_not_rejected_counterexample :
    ([(3 : ℕ), 2, 2] : List ℕ).length = 3 ∧
    migrate_state_dict 0 (some 2)
        [("attn.query_key_value.weight".toList,
          ⟨[3, 2, 2], [0, 1, 2, 3, 4, 5, 6, 7, 8, 9, 10, 11]⟩)] =
      .ok [("attn.query_key_value.weight".toList,
          ⟨[12], [0, 1, 4, 5, 8, 9, 2, 3, 6, 7, 10, 11]⟩)] := by
  exact ⟨by decide, by rfl⟩

/-- A list with the entries at two (in-range) positions swapped keeps its
length. -/
theorem swapIdx_length (i j : ℕ) (l : List ℕ) :
    (swapIdx i j l).length = l.length := by
  simp [swapIdx]

/-- C4 (amended): during attention-layout migration of a version-0 or
version-1 checkpoint, a fused query-key-value tensor whose rank is not 2 is
NOT explicitly rejected: it is processed by the 1-D bias branch whatever
its rank, so whenever that branch's reshapes succeed the result has rank 1
(version 0) or rank 3 (version 1); the only failure mode is a
size-mismatch error from `view`, not an unsupported-shape rejection. -/
theorem qkv_rank_outside_two_uses_bias_branch (np : ℕ) (t : Tensor)
    (hrank : t.shape.length ≠ 2) :
    migrateQKV 0 np t =
      ((t.view [some 3, some np, none]).bind fun w1 =>
        (w1.transposeCont 0 1).bind fun w2 => w2.view [none]) ∧
    migrateQKV 1 np t =
      ((t.view [some np, none, some 3]).bind fun w1 =>
        w1.transposeCont 1 2) ∧
    (∀ t', migrateQKV 0 np t = some t' → t'.shape.length = 1) ∧
    (∀ t', migrateQKV 1 np t = some t' → t'.shape.length = 3) := by
  refine ⟨by rw [migrateQKV, if_pos rfl, if_neg hrank],
    by rw [migrateQKV, if_neg (by omega), if_pos rfl, if_neg hrank], ?_, ?_⟩
  · intro t' h
    rw [migrateQKV, if_pos rfl, if_neg hrank] at h
    obtain ⟨w1, hv1, h⟩ := Option.bind_eq_some.mp h
    obtain ⟨w2, ht2, hv3⟩ := Option.bind_eq_some.mp h
    obtain ⟨_, ht'⟩ := Tensor.view_one_none w2 _ t' (by rfl) hv3
    rw [ht']
    rfl
  · intro t' h
    rw [migrateQKV, if_neg (by omega), if_pos rfl, if_neg hrank] at h
    obtain ⟨w1, hv1, ht2⟩ := Option.bind_eq_some.mp h
    obtain ⟨_, hw1⟩ := Tensor.view_one_none t _ w1 (by rfl) hv1
    obtain ⟨hshw, _⟩ := Tensor.transposeCont_some _ 1 2 t' ht2
    rw [hshw, swapIdx_length, hw1]
    rfl

/-- Witness for C4 (amended): the rank-3 tensor of shape `[3, 2, 2]` with
2 attention heads is routed through the bias branch of both versions. -/
theorem qkv_rank_outside_two_uses_bias_branch_witness :
    (⟨[3, 2, 2], [0, 1, 2, 3, 4, 5, 6, 7, 8, 9, 10, 11]⟩ :
        Tensor).shape.length ≠ 2 ∧
    (∀ t', migrateQKV 0 2
          ⟨[3, 2, 2], [0, 1, 2, 3, 4, 5, 6, 7, 8, 9, 10, 11]⟩ = some t' →
        t'.shape.length = 1) :=
  ⟨by decide,
    (qkv_rank_outside_two_uses_bias_branch 2
      ⟨[3, 2, 2], [0, 1, 2, 3, 4, 5, 6, 7, 8, 9, 10, 11]⟩
      (by decide)).2.2.1⟩

end Ckpt

namespace NCR

/-! ### Noisy channel reranking (noisy_channel_reranking.py)

Scores and sequence lengths are Python floats, modelled as exact
rationals.  The length-penalty exponent `--len_pen` (a Python float) is
modelled as an integer exponent, which keeps the penalty
`((5 + tgt_len) / 6) ** len_pen` inside the rationals. -/

/-- The command-line arguments of the script that the modelled fragment
reads (defaults per the argument parser: coefficients 1.0 / 0.7 / 0.07,
beam size 4, flags off, optional inputs absent). -/
structure Args where
  reverse_model : Option String
  language_model : Option String
  forward_model_coef : ℚ
  reverse_model_coef : ℚ
  target_lm_coef : ℚ
  srctext : Option String
  cached_score_file : Option String
  beam_size : ℕ
  write_scores : Bool
  length_normalize_scores : Bool
  len_pen : Option ℤ

/-- One parsed record of the cached score file: the 7 tab-separated fields
`src_text, tgt_text, forward_score, reverse_score, lm_score, src_len,
tgt_len` (lines 270–276), numeric fields already through `float(...)`. -/
structure Record where
  src_text : String
  tgt_text : String
  forward_score : ℚ
  reverse_score : ℚ
  lm_score : ℚ
  src_len : ℚ
  tgt_len : ℚ
  deriving DecidableEq

/-- The loop body of `score_fusion` (lines 66–83): accumulate
`score += coef * score_i`, each raw score first divided by its sequence
length when `--length_normalize_scores` is set (target length for the
forward and LM scores, source length for the reverse score), then divide
the total by `((5 + tgt_len) / 6) ** len_pen` when `--len_pen` is set. -/
def fuseOne (args : Args)
    (forward_score rev_score lm_score src_len tgt_len : ℚ) : ℚ :=
  let score : ℚ := 0
  let forward_score :=
    if args.length_normalize_scores then forward_score / tgt_len
    else forward_score
  let score := score + args.forward_model_coef * forward_score
  let rev_score :=
    if args.length_normalize_scores then rev_score / src_len else rev_score
  let score := score + args.reverse_model_coef * rev_score
  let lm_score :=
    if args.length_normalize_scores then lm_score / tgt_len else lm_score
  let score := score + args.target_lm_coef * lm_score
  match args.len_pen with
  | some pen => score / (((5 + tgt_len) / 6) ^ pen)
  | none => score

/-- `score_fusion` (lines 61–85) applied to the per-record zip of the five
parallel score/length lists, here carried by a list of `Record`s. -/
def score_fusion (args : Args) (records : List Record) : List ℚ :=
  records.map fun r =>
    fuseOne args r.forward_score r.reverse_score r.lm_score r.src_len
      r.tgt_len

/-- `np.argmax`: index of the first occurrence of the maximum of the list
(`0` on the empty list, which the script never hits). -/
def argmaxIdx : List ℚ → ℕ
  | [] => 0
  | [_] => 0
  | x :: y :: xs =>
    let j := argmaxIdx (y :: xs)
    if (y :: xs).getD j 0 > x then j + 1 else 0

/-- The per-window selection of the cached-score branch (line 279):
`tgt_texts[np.argmax(fused_scores)]`. -/
def selectWinner (args : Args) (window : List Record) : String :=
  ((window.map Record.tgt_text).getD (argmaxIdx (score_fusion args window))
    "")

/-- The record-level view of the cached-score reading loop
(lines 261–282): lines accumulate in `src_text`; once `beam_size` records
are buffered, the highest-fused-score target text is appended to the
output and the buffer is reset.  (A `Record` has its 7 fields by
construction, so the field-count guard of line 266 always passes here;
the raw field-level loop below carries that check.)  Returns the `tgt_text`
list the script writes to `--tgtout`, in order. -/
def rerankCachedLoop (args : Args) :
    List Record → List Record → List String
  | [], _src_text => []
  | line :: rest, src_text =>
    let src_text := src_text ++ [line]
    if src_text.length = args.beam_size then
      selectWinner args src_text :: rerankCachedLoop args rest []
    else
      rerankCachedLoop args rest src_text

/-- The fused score as the specification words it:
`fwd_coef * forward' + rev_coef * reverse' + lm_coef * lm'` with optional
length normalization, then the optional length-penalty division
(spec section 4.5). -/
def specFusedScore (args : Args) (r : Record) : ℚ :=
  let f :=
    if args.length_normalize_scores then r.forward_score / r.tgt_len
    else r.forward_score
  let rev :=
    if args.length_normalize_scores then r.reverse_score / r.src_len
    else r.reverse_score
  let lm :=
    if args.length_normalize_scores then r.lm_score / r.tgt_len
    else r.lm_score
  let total := args.forward_model_coef * f + args.reverse_model_coef * rev +
    args.target_lm_coef * lm
  match args.len_pen with
  | some pen => total / (((5 + r.tgt_len) / 6) ^ pen)
  | none => total

theorem fuseOne_eq_specFusedScore (args : Args) (r : Record) :
    fuseOne args r.forward_score r.reverse_score r.lm_score r.src_len
        r.tgt_len = specFusedScore args r := by
  unfold fuseOne specFusedScore
  rcases args.len_pen with _ | pen <;> ring_nf

theorem argmaxIdx_lt_length : ∀ (l : List ℚ), l ≠ [] → argmaxIdx l < l.length := by
  intro l
  induction l with
  | nil => intro h; exact absurd rfl h
  | cons x tail ih =>
    intro _
    rcases tail with _ | ⟨y, xs⟩
    · simp [argmaxIdx]
    · rw [argmaxIdx]
      split
      · have := ih (by simp)
        simpa using Nat.succ_lt_succ this
      · simp

theorem argmaxIdx_is_max :
    ∀ (l : List ℚ) (j : ℕ), j < l.length →
      l.getD j 0 ≤ l.getD (argmaxIdx l) 0 := by
  intro l
  induction l with
  | nil => intro j hj; simp at hj
  | cons x tail ih =>
    intro j hj
    rcases tail with _ | ⟨y, xs⟩
    · have hj0 : j = 0 := by simpa using hj
      subst hj0
      simp [argmaxIdx]
    · rw [argmaxIdx]
      split
      · rename_i hgt
        rcases j with _ | i
        · simpa using le_of_lt hgt
        · simpa using ih i (by simpa using hj)
      · rename_i hng
        push_neg at hng
        rcases j with _ | i
        · simp [argmaxIdx]
        · have h1 : (y :: xs).getD i 0 ≤
              (y :: xs).getD (argmaxIdx (y :: xs)) 0 :=
            ih i (by simpa using hj)
          simpa using le_trans h1 hng

theorem argmaxIdx_first :
    ∀ (l : List ℚ) (j : ℕ), j < argmaxIdx l →
      l.getD j 0 < l.getD (argmaxIdx l) 0 := by
  intro l
  induction l with
  | nil => intro j hj; simp [argmaxIdx] at hj
  | cons x tail ih =>
    intro j hj
    rcases tail with _ | ⟨y, xs⟩
    · simp [argmaxIdx] at hj
    · rw [argmaxIdx] at hj ⊢
      split
      · rename_i hgt
        rcases j with _ | i
        · simpa using hgt
        · have hj' : i < argmaxIdx (y :: xs) := by
            rw [if_pos hgt] at hj
            omega
          simpa using ih i hj'
      · rename_i hng
        rw [if_neg hng] at hj
        omega

theorem rerank_peel (args : Args) (w rest buf : List Record)
    (hlen : buf.length + w.length = args.beam_size) (hw : w ≠ []) :
    rerankCachedLoop args (w ++ rest) buf =
      selectWinner args (buf ++ w) :: rerankCachedLoop args rest [] := by
  induction w generalizing buf with
  | nil => exact absurd rfl hw
  | cons x xs ih =>
    rw [List.cons_append, rerankCachedLoop]
    rcases xs with _ | ⟨y, ys⟩
    · rw [if_pos (by simp at hlen ⊢; omega)]
      simp
    · rw [if_neg (by simp at hlen ⊢; omega)]
      have hstep := ih (buf ++ [x]) (by simp at hlen ⊢; omega) (by simp)
      simpa [List.append_assoc] using hstep

theorem rerank_windows_aux (args : Args) (hbs : 0 < args.beam_size) :
    ∀ (k : ℕ) (lines : List Record),
      lines.length = args.beam_size * k →
      (rerankCachedLoop args lines []).length = k ∧
      ∀ i, i < k →
        (rerankCachedLoop args lines []).getD i "" =
          selectWinner args
            ((lines.drop (i * args.beam_size)).take args.beam_size) := by
  intro k
  induction k with
  | zero =>
    intro lines hl
    have hnil : lines = [] := List.eq_nil_of_length_eq_zero (by omega)
    subst hnil
    exact ⟨rfl, fun i hi => absurd hi (by omega)⟩
  | succ k ih =>
    intro lines hl
    rw [Nat.mul_succ] at hl
    have hwlen : (lines.take args.beam_size).length = args.beam_size := by
      rw [List.length_take]
      omega
    have hrest : (lines.drop args.beam_size).length = args.beam_size * k := by
      rw [List.length_drop]
      omega
    obtain ⟨ihlen, ihwin⟩ := ih (lines.drop args.beam_size) hrest
    have hpeel := rerank_peel args (lines.take args.beam_size)
      (lines.drop args.beam_size) [] (by simpa using hwlen)
      (by
        intro hnil
        rw [hnil] at hwlen
        simp at hwlen
        omega)
    rw [List.take_append_drop] at hpeel
    rw [hpeel]
    constructor
    · simp [ihlen]
    · intro i hi
      rcases i with _ | i
      · simp
      · have hwin := ihwin i (by omega)
        have hdrop : (lines.drop args.beam_size).drop (i * args.beam_size) =
            lines.drop ((i + 1) * args.beam_size) := by
          rw [List.drop_drop]
          congr 1
          ring
        simpa [hdrop] using hwin

/-- C2: in cached-score mode, for every beam window of `beam_size`
consecutive records the reranker writes the target text of the record
with the maximum fused score, ties resolved by first occurrence, where
the fused score is
`fwd_coef * forward' + rev_coef * reverse' + lm_coef * lm'` (each primed
score the raw score divided by target length for forward/LM and by source
length for reverse when length normalization is on, else the raw score),
the total then divided by `((5 + tgt_len) / 6) ^ len_pen` when a length
penalty is configured; and with forward `-2.0`, reverse `-3.0`, LM `-1.0`,
coefficients `(1.0, 0.7, 0.07)`, no normalization and no penalty, the
fused score is `-4.17`. -/
theorem rerank_cached_beam_selection (args : Args) (lines : List Record)
    (hbs : 0 < args.beam_size) (hdvd : args.beam_size ∣ lines.length) :
    ((rerankCachedLoop args lines []).length =
        lines.length / args.beam_size ∧
      ∀ i, i < lines.length / args.beam_size →
        ∃ k, k < args.beam_size ∧
          (rerankCachedLoop args lines []).getD i "" =
            (((lines.drop (i * args.beam_size)).take
                args.beam_size).map Record.tgt_text).getD k "" ∧
          (∀ j, j < args.beam_size →
            (((lines.drop (i * args.beam_size)).take
                args.beam_size).map (specFusedScore args)).getD j 0 ≤
              (((lines.drop (i * args.beam_size)).take
                  args.beam_size).map (specFusedScore args)).getD k 0) ∧
          (∀ j, j < k →
            (((lines.drop (i * args.beam_size)).take
                args.beam_size).map (specFusedScore args)).getD j 0 <
              (((lines.drop (i * args.beam_size)).take
                  args.beam_size).map (specFusedScore args)).getD k 0)) ∧
      fuseOne ⟨none, none, 1, 7/10, 7/100, none, none, 4, false, false,
          none⟩ (-2) (-3) (-1) 17 21 = -417/100 := by
  obtain ⟨c, hc⟩ := hdvd
  have hdivlen : lines.length / args.beam_size = c := by
    rw [hc, Nat.mul_div_cancel_left c hbs]
  obtain ⟨hlen, hwin⟩ := rerank_windows_aux args hbs c lines hc
  refine ⟨⟨by rw [hdivlen]; exact hlen, ?_⟩, by norm_num [fuseOne]⟩
  intro i hi
  rw [hdivlen] at hi
  set w := (lines.drop (i * args.beam_size)).take args.beam_size with hw
  have hwl : w.length = args.beam_size := by
    rw [hw, List.length_take, List.length_drop, hc]
    have h1 : args.beam_size * (i + 1) ≤ args.beam_size * c :=
      Nat.mul_le_mul_left _ (by omega)
    rw [Nat.mul_succ] at h1
    have h2 : i * args.beam_size = args.beam_size * i := Nat.mul_comm _ _
    omega
  have hmapspec : score_fusion args w = w.map (specFusedScore args) := by
    unfold score_fusion
    exact List.map_congr_left fun r _ => fuseOne_eq_specFusedScore args r
  have hsflen : (score_fusion args w).length = args.beam_size := by
    rw [hmapspec, List.length_map, hwl]
  refine ⟨argmaxIdx (score_fusion args w), ?_, ?_, ?_, ?_⟩
  · have := argmaxIdx_lt_length (score_fusion args w)
      (by
        intro hnil
        rw [hnil] at hsflen
        simp at hsflen
        omega)
    omega
  · rw [hwin i hi]
    rfl
  · intro j hj
    rw [← hmapspec]
    exact argmaxIdx_is_max (score_fusion args w) j (by omega)
  · intro j hj
    rw [← hmapspec]
    exact argmaxIdx_first (score_fusion args w) j hj

/-- Witness for C2: beam size 2, one concrete window of two records with
fused scores `-1.0` and `-0.5`; the theorem instantiates with both
hypotheses discharged. -/
theorem rerank_cached_beam_selection_witness :
    (0 : ℕ) < 2 ∧ (2 : ℕ) ∣
      ([⟨"s", "a", -1, 0, 0, 1, 1⟩, ⟨"s", "b", -1/2, 0, 0, 1, 1⟩] :
        List Record).length ∧
    (((rerankCachedLoop
          ⟨none, none, 1, 7/10, 7/100, none, none, 2, false, false, none⟩
          [⟨"s", "a", -1, 0, 0, 1, 1⟩, ⟨"s", "b", -1/2, 0, 0, 1, 1⟩]
          []).length =
        ([⟨"s", "a", -1, 0, 0, 1, 1⟩, ⟨"s", "b", -1/2, 0, 0, 1, 1⟩] :
            List Record).length / 2 ∧
      ∀ i, i <
          ([⟨"s", "a", -1, 0, 0, 1, 1⟩, ⟨"s", "b", -1/2, 0, 0, 1, 1⟩] :
              List Record).length / 2 →
        ∃ k, k < 2 ∧
          (rerankCachedLoop
              ⟨none, none, 1, 7/10, 7/100, none, none, 2, false, false,
                none⟩
              [⟨"s", "a", -1, 0, 0, 1, 1⟩, ⟨"s", "b", -1/2, 0, 0, 1, 1⟩]
              []).getD i "" =
            (((([⟨"s", "a", -1, 0, 0, 1, 1⟩,
                  ⟨"s", "b", -1/2, 0, 0, 1, 1⟩] :
                List Record).drop (i * 2)).take 2).map
                Record.tgt_text).getD k "" ∧
          (∀ j, j < 2 →
            (((([⟨"s", "a", -1, 0, 0, 1, 1⟩,
                    ⟨"s", "b", -1/2, 0, 0, 1, 1⟩] :
                  List Record).drop (i * 2)).take 2).map
                (specFusedScore
                  ⟨none, none, 1, 7/10, 7/100, none, none, 2, false,
                    false, none⟩)).getD j 0 ≤
              (((([⟨"s", "a", -1, 0, 0, 1, 1⟩,
                      ⟨"s", "b", -1/2, 0, 0, 1, 1⟩] :
                    List Record).drop (i * 2)).take 2).map
                  (specFusedScore
                    ⟨none, none, 1, 7/10, 7/100, none, none, 2, false,
                      false, none⟩)).getD k 0) ∧
          (∀ j, j < k →
            (((([⟨"s", "a", -1, 0, 0, 1, 1⟩,
                    ⟨"s", "b", -1/2, 0, 0, 1, 1⟩] :
                  List Record).drop (i * 2)).take 2).map
                (specFusedScore
                  ⟨none, none, 1, 7/10, 7/100, none, none, 2, false,
                    false, none⟩)).getD j 0 <
              (((([⟨"s", "a", -1, 0, 0, 1, 1⟩,
                      ⟨"s", "b", -1/2, 0, 0, 1, 1⟩] :
                    List Record).drop (i * 2)).take 2).map
                  (specFusedScore
                    ⟨none, none, 1, 7/10, 7/100, none, none, 2, false,
                      false, none⟩)).getD k 0)) ∧
      fuseOne ⟨none, none, 1, 7/10, 7/100, none, none, 4, false, false,
          none⟩ (-2) (-3) (-1) 17 21 = -417/100) :=
  ⟨by decide, by decide,
    rerank_cached_beam_selection
      ⟨none, none, 1, 7/10, 7/100, none, none, 2, false, false, none⟩
      [⟨"s", "a", -1, 0, 0, 1, 1⟩, ⟨"s", "b", -1/2, 0, 0, 1, 1⟩]
      (by decide) (by decide)⟩

/-- The fatal error of the cached-score branch. -/
inductive FormatError where
  /-- the `IndexError` of lines 266–269: a complete beam window contains a
  line without exactly 7 tab-separated fields (its message, a fixed string,
  claims "5 fields"). -/
  | badFieldCount
  deriving DecidableEq

/-- The field-level view of the cached-score reading loop (lines 261–282):
each input line is already split on tabs into its field list.  Lines
accumulate in `src_text`; when `beam_size` lines are buffered the
field-count guard of line 266 runs, raising on a window with a line whose
field count is not 7, and otherwise one window is reranked.  Returns the
number of reranked windows (the script's `count`), or the error; lines
after the last complete window are never examined. -/
def cachedWindowCheck (beam_size : ℕ) :
    List (List String) → List (List String) → Except FormatError ℕ
  | [], _src_text => .ok 0
  | line :: rest, src_text =>
    let src_text := src_text ++ [line]
    if src_text.length = beam_size then
      if src_text.all (fun item => item.length = 7) then
        (cachedWindowCheck beam_size rest []).map (· + 1)
      else .error .badFieldCount
    else cachedWindowCheck beam_size rest src_text

theorem cachedWindowCheck_peel (bs : ℕ) (w rest buf : List (List String))
    (hlen : buf.length + w.length = bs) (hw : w ≠ []) :
    cachedWindowCheck bs (w ++ rest) buf =
      (if (buf ++ w).all (fun item => item.length = 7) then
        (cachedWindowCheck bs rest []).map (· + 1)
      else .error .badFieldCount) := by
  induction w generalizing buf with
  | nil => exact absurd rfl hw
  | cons x xs ih =>
    rw [List.cons_append, cachedWindowCheck]
    rcases xs with _ | ⟨y, ys⟩
    · rw [if_pos (by simp at hlen ⊢; omega)]
      simp
    · rw [if_neg (by simp at hlen ⊢; omega)]
      have hstep := ih (buf ++ [x]) (by simp at hlen ⊢; omega) (by simp)
      simpa [List.append_assoc] using hstep

theorem cachedWindowCheck_short (bs : ℕ) :
    ∀ (tail buf : List (List String)), buf.length + tail.length < bs →
      cachedWindowCheck bs tail buf = .ok 0 := by
  intro tail
  induction tail with
  | nil => intro buf _; rfl
  | cons x xs ih =>
    intro buf hlt
    rw [cachedWindowCheck, if_neg (by simp at hlt ⊢; omega)]
    exact ih (buf ++ [x]) (by simp at hlt ⊢; omega)

theorem cachedWindowCheck_aux (bs : ℕ) (hbs : 0 < bs) :
    ∀ (k : ℕ) (lines rest : List (List String)),
      lines.length = bs * k → rest.length < bs →
      cachedWindowCheck bs (lines ++ rest) [] =
        (if lines.all (fun item => item.length = 7) then .ok k
          else .error .badFieldCount) := by
  intro k
  induction k with
  | zero =>
    intro lines rest hl hr
    have hnil : lines = [] := List.eq_nil_of_length_eq_zero (by omega)
    subst hnil
    simpa using cachedWindowCheck_short bs rest [] (by simpa using hr)
  | succ k ih =>
    intro lines rest hl hr
    rw [Nat.mul_succ] at hl
    have hwlen : (lines.take bs).length = bs := by
      rw [List.length_take]
      omega
    have hrest : (lines.drop bs).length = bs * k := by
      rw [List.length_drop]
      omega
    have hsplit := (List.take_append_drop bs lines).symm
    rw [show lines ++ rest = lines.take bs ++ (lines.drop bs ++ rest) by
      rw [← List.append_assoc, List.take_append_drop]]
    rw [cachedWindowCheck_peel bs (lines.take bs) (lines.drop bs ++ rest) []
      (by simpa using hwlen)
      (by
        intro hnil
        rw [hnil] at hwlen
        simp at hwlen
        omega)]
    rw [ih (lines.drop bs) rest hrest hr]
    rw [show lines.all (fun item => item.length = 7) =
        ((lines.take bs).all (fun item => item.length = 7) &&
          (lines.drop bs).all (fun item => item.length = 7)) by
      rw [← List.all_append, List.take_append_drop]]
    by_cases h1 : (lines.take bs).all (fun item => item.length = 7)
    · by_cases h2 : (lines.drop bs).all (fun item => item.length = 7)
      · simp [h1, h2, Except.map]
      · simp [h1, h2, Except.map]
    · simp [h1]

/-- C5 (counterexample): a cached score file whose total line count (3) is
NOT evenly divisible by the beam size (2), all lines well-formed with 7
fields, does not fail at all: the reranker processes the single complete
window and silently ignores the trailing line, returning one selected
translation and no `FormatError`. -/
theorem cached_nondivisible_no_error_counterexample :
    ¬ ((2 : ℕ) ∣ ([["a", "b", "c", "d", "e", "f", "g"],
        ["a", "b", "c", "d", "e", "f", "g"],
        ["a", "b", "c", "d", "e", "f", "g"]] :
          List (List String)).length) ∧
    cachedWindowCheck 2
        [["a", "b", "c", "d", "e", "f", "g"],
          ["a", "b", "c", "d", "e", "f", "g"],
          ["a", "b", "c", "d", "e", "f", "g"]] [] = .ok 1 :=
  ⟨by decide, rfl⟩

/-- C5 (amended): in cached-score mode, the reranker fails with a
`FormatError` exactly when some line of a COMPLETE beam window (the first
`beam_size * (n / beam_size)` lines) does not have exactly 7 tab-separated
fields (the error message is a fixed string, not a line count); lines
after the last complete window are silently dropped — a total line count
not divisible by `beam_size` produces no error — and on success exactly
`n / beam_size` windows produce a selected translation. -/
theorem cached_fieldcount_check (bs : ℕ) (lines : List (List String))
    (hbs : 0 < bs) :
    ((lines.take (bs * (lines.length / bs))).all
        (fun item => item.length = 7) = true →
      cachedWindowCheck bs lines [] = .ok (lines.length / bs)) ∧
    ((lines.take (bs * (lines.length / bs))).all
        (fun item => item.length = 7) = false →
      cachedWindowCheck bs lines [] = .error .badFieldCount) := by
  have hlen : (lines.take (bs * (lines.length / bs))).length =
      bs * (lines.length / bs) := by
    rw [List.length_take]
    have := Nat.div_mul_le_self lines.length bs
    have h2 : lines.length / bs * bs = bs * (lines.length / bs) :=
      Nat.mul_comm _ _
    omega
  have hrlen : (lines.drop (bs * (lines.length / bs))).length < bs := by
    rw [List.length_drop]
    have h1 := Nat.mod_lt lines.length hbs
    have h2 := Nat.div_add_mod lines.length bs
    omega
  have hmain := cachedWindowCheck_aux bs hbs (lines.length / bs)
    (lines.take (bs * (lines.length / bs)))
    (lines.drop (bs * (lines.length / bs))) hlen hrlen
  rw [List.take_append_drop] at hmain
  constructor
  · intro hall
    rw [hmain, if_pos hall]
  · intro hall
    rw [hmain, if_neg (by rw [hall]; exact Bool.false_ne_true)]

/-- Witness for C5 (amended): beam size 2 with one well-formed window of
7-field lines plus a trailing line succeeds with one window; replacing a
window line by a 6-field line fails with the `FormatError`. -/
theorem cached_fieldcount_check_witness :
    (0 : ℕ) < 2 ∧
    (([["a", "b", "c", "d", "e", "f", "g"],
        ["a", "b", "c", "d", "e", "f", "g"],
        ["x"]] : List (List String)).take
          (2 * (([["a", "b", "c", "d", "e", "f", "g"],
            ["a", "b", "c", "d", "e", "f", "g"],
            ["x"]] : List (List String)).length / 2))).all
        (fun item => item.length = 7) = true ∧
    cachedWindowCheck 2
        [["a", "b", "c", "d", "e", "f", "g"],
          ["a", "b", "c", "d", "e", "f", "g"], ["x"]] [] =
      .ok (([["a", "b", "c", "d", "e", "f", "g"],
          ["a", "b", "c", "d", "e", "f", "g"],
          ["x"]] : List (List String)).length / 2) :=
  ⟨by decide, by decide,
    (cached_fieldcount_check 2
        [["a", "b", "c", "d", "e", "f", "g"],
          ["a", "b", "c", "d", "e", "f", "g"], ["x"]]
        (by decide)).1 (by decide)⟩

/-- Python `s.split(',')` on the character list: splits at every comma,
keeping empty pieces (`''.split(',') == ['']`). -/
def splitCommaChars : List Char → List (List Char)
  | [] => [[]]
  | c :: cs =>
    let rest := splitCommaChars cs
    if c = ',' then [] :: rest
    else (c :: rest.headD []) :: rest.tail

/-- Python `s.split(',')`. -/
def splitComma (s : String) : List String :=
  (splitCommaChars s.data).map List.asString

/-- Python `model_path.endswith('.nemo')`. -/
def endsWithNemo (s : String) : Bool :=
  ".nemo".data.isSuffixOf s.data

/-- A model-I/O action performed by the prologue of `main`. -/
inductive IOEvent where
  /-- `MTEncDecModel.restore_from(restore_path=model_path)` (line 163). -/
  | restoreReverse (path : String)
  /-- `TransformerLMModel.restore_from(restore_path=args.language_model)`
  (lines 167–169). -/
  | restoreLM (path : Option String)
  deriving DecidableEq

/-- A fatal error raised by the prologue of `main` (lines 158–175). -/
inductive MainError where
  /-- `ValueError`: both `--srctext` and `--cached_score_file` given
  (line 172). -/
  | configBoth
  /-- `ValueError`: neither `--srctext` nor `--cached_score_file` given
  (line 175). -/
  | configNeither
  /-- `AttributeError`: `args.reverse_model.split(',')` with
  `--reverse_model` absent (line 160). -/
  | attrNoneSplit
  /-- `NotImplementedError`: a reverse-model path without the `.nemo`
  suffix (line 162). -/
  | nonNemoPath (path : String)
  deriving DecidableEq

/-- The mutual-exclusion checks of lines 171–175, in source order. -/
def checkMode (args : Args) : Option MainError :=
  if args.srctext.isSome ∧ args.cached_score_file.isSome then
    some .configBoth
  else if args.srctext.isNone ∧ args.cached_score_file.isNone then
    some .configNeither
  else none

/-- The prologue of `main` (lines 156–175): when `--cached_score_file` is
absent, the reverse models and the language model are restored FIRST
(lines 158–169, model I/O, aborting at the first non-`.nemo` reverse
path); only then do the mutual-exclusion checks of lines 171–175 run.
Returns the model-I/O events performed, in order, together with the
terminal error, if any. -/
def mainStart (args : Args) : List IOEvent × Option MainError :=
  match args.cached_score_file with
  | some _ => ([], checkMode args)
  | none =>
    match args.reverse_model with
    | none => ([], some .attrNoneSplit)
    | some rm =>
      let paths := splitComma rm
      if paths.all endsWithNemo then
        (paths.map IOEvent.restoreReverse ++
            [IOEvent.restoreLM args.language_model],
          checkMode args)
      else
        ((paths.takeWhile endsWithNemo).map IOEvent.restoreReverse,
          some (.nonNemoPath ((paths.dropWhile endsWithNemo).headD "")))

/-- C9 (counterexample): with NEITHER `--srctext` nor `--cached_score_file`
supplied (and a valid `--reverse_model`), the run does fail with the
neither-provided `ValueError`, but only AFTER restoring the reverse model
and the language model: the performed model-I/O event list is non-empty,
refuting "fails with a ConfigError before any file or model I/O". -/
theorem neither_input_after_model_io_counterexample :
    (mainStart ⟨some "m.nemo", some "lm.nemo", 1, 7/10, 7/100, none, none,
        4, false, false, none⟩).1 =
      [IOEvent.restoreReverse "m.nemo",
        IOEvent.restoreLM (some "lm.nemo")] ∧
    (mainStart ⟨some "m.nemo", some "lm.nemo", 1, 7/10, 7/100, none, none,
        4, false, false, none⟩).2 = some .configNeither := by
  constructor
  · rfl
  · rfl

/-- C9 (amended): when both `--srctext` and `--cached_score_file` are
supplied, the run fails with the mutual-exclusion `ValueError` before any
file or model I/O (model loading is skipped because a cached score file is
present).  When neither is supplied the run also fails before producing
output, but NOT before model I/O: it fails with an `AttributeError` when
`--reverse_model` is also absent, and otherwise restores the reverse and
language models first and only then raises the neither-provided
`ValueError`. -/
theorem input_mode_validation (args : Args) :
    (args.srctext.isSome = true → args.cached_score_file.isSome = true →
      mainStart args = ([], some .configBoth)) ∧
    (args.srctext = none → args.cached_score_file = none →
      (mainStart args).2.isSome = true ∧
        (mainStart args).2 ≠ some .configBoth) ∧
    (args.srctext = none → args.cached_score_file = none →
      args.reverse_model = none →
        mainStart args = ([], some .attrNoneSplit)) ∧
    (args.srctext = none → args.cached_score_file = none →
      ∀ rm, args.reverse_model = some rm →
        (splitComma rm).all endsWithNemo = true →
        mainStart args =
          ((splitComma rm).map IOEvent.restoreReverse ++
              [IOEvent.restoreLM args.language_model],
            some .configNeither)) := by
  refine ⟨?_, ?_, ?_, ?_⟩
  · intro hs hc
    rcases h : args.cached_score_file with _ | cf
    · rw [h] at hc
      simp at hc
    · rw [mainStart.eq_def, h]
      rw [checkMode, if_pos ⟨hs, by rw [h]; rfl⟩]
  · intro hs hc
    have hcm : checkMode args = some .configNeither := by
      rw [checkMode, if_neg (by simp [hs]), if_pos (by simp [hs, hc])]
    rw [mainStart.eq_def]
    rcases hrm : args.reverse_model with _ | rm
    · simp [hc]
    · by_cases hall : (splitComma rm).all endsWithNemo
      · simp [hc, hall, hcm]
      · simp [hc, hall]
  · intro _ hc hrm
    rw [mainStart.eq_def, hc, hrm]
  · intro hs hc rm hrm hall
    have hcm : checkMode args = some .configNeither := by
      rw [checkMode, if_neg (by simp [hs]), if_pos (by simp [hs, hc])]
    rw [mainStart.eq_def, hc, hrm]
    simp [hall, hcm]

/-- Witness for C9 (amended): with both inputs supplied the check fails
with the mutual-exclusion error and an empty I/O trace. -/
theorem input_mode_validation_witness :
    (some "x" : Option String).isSome = true ∧
    (some "y" : Option String).isSome = true ∧
    mainStart ⟨none, none, 1, 7/10, 7/100, some "x", some "y", 4, false,
        false, none⟩ = ([], some .configBoth) :=
  ⟨by decide, by decide,
    (input_mode_validation
        ⟨none, none, 1, 7/10, 7/100, some "x", some "y", 4, false, false,
          none⟩).1 (by decide) (by decide)⟩

end NCR

namespace Ckpt

/-! ### Optimizer-state adaptation (`add_optimizer_state`, lines 174–223)

The source checkpoint's dynamic dictionaries are modelled with `Option`
fields for possibly-absent keys; reading an absent key is a `KeyError`
(an `AdapterError` here). -/

/-- One optimizer parameter group.  `initial_lr` is absent until the
adapter back-fills it from the scheduler (line 190). -/
structure ParamGroup where
  lr : ℚ
  initial_lr : Option ℚ
  deriving DecidableEq

/-- The inner optimizer state (`lm_checkpoint['optimizer']['optimizer']`),
reduced to the `param_groups` the adapter reads. -/
structure OptState where
  param_groups : List ParamGroup
  deriving DecidableEq

/-- `lm_checkpoint['optimizer']`: optionally holds the nested optimizer
state and the mixed-precision shadow parameters. -/
structure OptSection where
  optimizer : Option OptState
  fp32_from_fp16_params : Option (List ℚ)
  deriving DecidableEq

/-- `lm_checkpoint['lr_scheduler']`, reduced to the fields the adapter
reads. -/
structure Sched where
  max_lr : ℚ
  min_lr : ℚ
  warmup_steps : ℕ
  decay_steps : ℕ
  num_steps : ℕ
  deriving DecidableEq

/-- The source checkpoint fields `add_optimizer_state` reads:
`lm_checkpoint['args'].global_batch_size` is collapsed into one optional
value (absent when the `args` key or the attribute is missing). -/
structure LMCheckpoint where
  optimizer : Option OptSection
  iteration : Option ℕ
  lr_scheduler : Option Sched
  global_batch_size : Option ℕ
  deriving DecidableEq

/-- One element of `new_checkpoint['optimizer_states']`: the
`megatron_amp_o2` branch wraps the optimizer state in a dict under the
`'optimizer'` key (lines 186–195), the other branch stores the raw state
(line 197). -/
inductive OptStatesEntry where
  | wrapped (fp32_from_fp16_params : Option (List ℚ)) (opt : OptState)
  | raw (opt : OptState)
  deriving DecidableEq

/-- The reconstructed `new_checkpoint['lr_schedulers'][0]` contents
(lines 205–222).  `last_lr` models `'_last_lr'` (only written in the
optimizer branch) and `step_count` models `'_step_count'`. -/
structure SchedContent where
  max_steps : ℕ
  warmup_steps : ℕ
  constant_steps : ℕ
  decay_steps : ℕ
  min_lr : ℚ
  base_lrs : List ℚ
  last_epoch : ℕ
  last_lr : Option (List ℚ)
  step_count : ℕ
  verbose : Bool
  get_lr_called_within_step : Bool
  deriving DecidableEq

/-- The target checkpoint fields `add_optimizer_state` writes; all are
absent before the call. -/
structure NewCheckpoint where
  optimizer_states : Option (List OptStatesEntry)
  global_step : Option ℕ
  epoch : Option ℕ
  lr_schedulers : Option (List SchedContent)
  deriving DecidableEq

/-- A Python runtime error escaping `add_optimizer_state`. -/
inductive AdapterError where
  /-- `lm_checkpoint['args']` / `.global_batch_size` missing (line 203). -/
  | missingGlobalBatchSize
  /-- `ZeroDivisionError` on `// gbs` (line 206). -/
  | divisionByZero
  /-- `KeyError: 'optimizer_states'` (line 213): the fallback is guarded by
  the TOP-LEVEL `'optimizer'` key (line 211), but `'optimizer_states'` is
  only created when the NESTED optimizer state exists (line 183). -/
  | missingOptimizerStates
  /-- `IndexError`: `new_checkpoint['optimizer_states'][0]` on an empty
  list (line 213). -/
  | emptyOptimizerStates
  /-- `KeyError: 'optimizer'` (line 213): the stored entry is a raw state
  without an `'optimizer'` key (the non-`megatron_amp_o2` branch). -/
  | missingOptimizerKey
  /-- `KeyError: 'initial_lr'` (line 213): a parameter group without the
  back-filled `initial_lr`. -/
  | missingInitialLr
  deriving DecidableEq

/-- All elements of an optional-valued list, if every one is present. -/
def allSome : List (Option ℚ) → Option (List ℚ)
  | [] => some []
  | none :: _ => none
  | some x :: rest => (allSome rest).map (x :: ·)

/-- The `content` ordered dictionary of lines 205–222: step counts
floor-divided by the global batch size, `constant_steps` fixed to 0,
`verbose` and `_get_lr_called_within_step` fixed to `False`. -/
def schedContent (sched : Sched) (gbs : ℕ) (base_lrs : List ℚ)
    (last_lr : Option (List ℚ)) : SchedContent :=
  { max_steps := sched.decay_steps / gbs + sched.warmup_steps / gbs
    warmup_steps := sched.warmup_steps / gbs
    constant_steps := 0
    decay_steps := sched.decay_steps / gbs
    min_lr := sched.min_lr
    base_lrs := base_lrs
    last_epoch := sched.num_steps / gbs
    last_lr := last_lr
    step_count := sched.num_steps / gbs
    verbose := false
    get_lr_called_within_step := false }

/-- Lines 183–197 of `add_optimizer_state`: if the top-level `'optimizer'`
key exists AND it holds a nested `'optimizer'` state, wrap that state
into a one-element `optimizer_states` list, back-filling
`initial_lr := max_lr` into every parameter group when a scheduler exists
and including the fp32 shadow params when present — raw, unwrapped, when
`megatron_amp_o2` is false. -/
def stepOptimizerStates (lm_checkpoint : LMCheckpoint)
    (megatron_amp_o2 : Bool) : NewCheckpoint :=
  let c0 : NewCheckpoint := ⟨none, none, none, none⟩
  match lm_checkpoint.optimizer with
  | some osec =>
    match osec.optimizer with
    | some opt_state =>
      if megatron_amp_o2 then
        let opt_state :=
          match lm_checkpoint.lr_scheduler with
          | some sched =>
            { opt_state with
              param_groups := opt_state.param_groups.map
                fun g => { g with initial_lr := some sched.max_lr } }
          | none => opt_state
        let entry :=
          OptStatesEntry.wrapped osec.fp32_from_fp16_params opt_state
        { c0 with optimizer_states := some [entry] }
      else { c0 with optimizer_states := some [.raw opt_state] }
    | none => c0
  | none => c0

/-- Lines 199–201 of `add_optimizer_state`: copy `'iteration'` to
`global_step` and set `epoch := 1`, only when `'iteration'` exists. -/
def stepIteration (lm_checkpoint : LMCheckpoint) (c : NewCheckpoint) :
    NewCheckpoint :=
  match lm_checkpoint.iteration with
  | some it => { c with global_step := some it, epoch := some 1 }
  | none => c

/-- Lines 211–219 of `add_optimizer_state`: derive
`base_lrs` / `'_last_lr'` from
`new_checkpoint['optimizer_states'][0]['optimizer']['param_groups']` when
the TOP-LEVEL `'optimizer'` key exists in the source checkpoint, else
fall back to `[sched['max_lr']]`. -/
def stepBaseLrs (lm_checkpoint : LMCheckpoint) (sched : Sched)
    (c : NewCheckpoint) : Except AdapterError (List ℚ × Option (List ℚ)) :=
  if lm_checkpoint.optimizer.isSome then
    match c.optimizer_states with
    | none => .error .missingOptimizerStates
    | some entries =>
      match entries.head? with
      | none => .error .emptyOptimizerStates
      | some (.raw _) => .error .missingOptimizerKey
      | some (.wrapped _ opt) =>
        match allSome (opt.param_groups.map (fun g => g.initial_lr)) with
        | none => .error .missingInitialLr
        | some lrs =>
          .ok (lrs, some (opt.param_groups.map (fun g => g.lr)))
  else
    .ok ([sched.max_lr], none)

/-- `add_optimizer_state(lm_checkpoint, new_checkpoint, megatron_amp_o2)`
(lines 174–223), as a function from the source checkpoint to the target
fields it writes (the target starts with all four fields absent):
`stepOptimizerStates` (lines 183–197), then `stepIteration`
(lines 199–201), then, when `'lr_scheduler'` exists (lines 202–223), read
the global batch size (`KeyError` when absent, `ZeroDivisionError` when
zero), derive `base_lrs` / `'_last_lr'` via `stepBaseLrs`, and write the
`schedContent` as the one-element `lr_schedulers` list. -/
def add_optimizer_state (lm_checkpoint : LMCheckpoint)
    (megatron_amp_o2 : Bool := true) :
    Except AdapterError NewCheckpoint :=
  let c2 :=
    stepIteration lm_checkpoint
      (stepOptimizerStates lm_checkpoint megatron_amp_o2)
  match lm_checkpoint.lr_scheduler with
  | none => .ok c2
  | some sched =>
    match lm_checkpoint.global_batch_size with
    | none => .error .missingGlobalBatchSize
    | some gbs =>
      if gbs = 0 then .error .divisionByZero
      else
        (stepBaseLrs lm_checkpoint sched c2).map fun blrs =>
          { c2 with
              lr_schedulers := some [schedContent sched gbs blrs.1 blrs.2] }

theorem except_map_eq_ok {ε α β : Type} (f : α → β) (e : Except ε α)
    (b : β) : e.map f = .ok b ↔ ∃ a, e = .ok a ∧ f a = b := by
  cases e <;> simp [Except.map]

theorem allSome_map_const {α : Type} (q : ℚ) (l : List α) :
    allSome (l.map fun _ => some q) = some (l.map fun _ => q) := by
  induction l with
  | nil => rfl
  | cons x xs ih =>
    rw [List.map_cons, List.map_cons, allSome, ih]
    rfl

/-- C10: for every source checkpoint whose top-level optimizer section
lacks the nested optimizer state (so no `optimizer_states` entry is
created) while a learning-rate-scheduler section is present (and the
global batch size is available and non-zero, so the earlier reads
succeed), `add_optimizer_state` fails with the unhandled
`KeyError: 'optimizer_states'` when deriving `base_lrs`, instead of
falling back to the scheduler's `max_lr`: the fallback branch is guarded
only by the presence of the top-level `'optimizer'` key, not by the
presence of the produced `optimizer_states` entry. -/
theorem base_lrs_fallback_guard_keyerror (o2 : Bool) (lm : LMCheckpoint)
    (osec : OptSection) (sched : Sched) (gbs : ℕ)
    (hopt : lm.optimizer = some osec) (hnest : osec.optimizer = none)
    (hs : lm.lr_scheduler = some sched)
    (hg : lm.global_batch_size = some gbs) (hgz : gbs ≠ 0) :
    add_optimizer_state lm o2 = .error .missingOptimizerStates := by
  have h1 : stepOptimizerStates lm o2 = ⟨none, none, none, none⟩ := by
    simp [stepOptimizerStates, hopt, hnest]
  have h2 : (stepIteration lm
      (stepOptimizerStates lm o2)).optimizer_states = none := by
    rcases hit : lm.iteration with _ | it <;>
      simp [stepIteration, hit, h1]
  have h3 : stepBaseLrs lm sched
      (stepIteration lm (stepOptimizerStates lm o2)) =
        .error .missingOptimizerStates := by
    rw [stepBaseLrs, if_pos (by simp [hopt]), h2]
  simp [add_optimizer_state, hs, hg, hgz, h3, Except.map]

/-- Witness for C10: a concrete checkpoint with an empty top-level
optimizer section, a scheduler, and global batch size 10. -/
theorem base_lrs_fallback_guard_keyerror_witness :
    (⟨some ⟨none, none⟩, none, some ⟨1, 0, 30, 70, 50⟩, some 10⟩ :
        LMCheckpoint).optimizer = some ⟨none, none⟩ ∧
    (⟨none, none⟩ : OptSection).optimizer = none ∧
    (⟨some ⟨none, none⟩, none, some ⟨1, 0, 30, 70, 50⟩, some 10⟩ :
        LMCheckpoint).lr_scheduler = some ⟨1, 0, 30, 70, 50⟩ ∧
    (⟨some ⟨none, none⟩, none, some ⟨1, 0, 30, 70, 50⟩, some 10⟩ :
        LMCheckpoint).global_batch_size = some 10 ∧
    (10 : ℕ) ≠ 0 ∧
    add_optimizer_state
        ⟨some ⟨none, none⟩, none, some ⟨1, 0, 30, 70, 50⟩, some 10⟩ true =
      .error .missingOptimizerStates :=
  ⟨rfl, rfl, rfl, rfl, by decide,
    base_lrs_fallback_guard_keyerror true _ ⟨none, none⟩ ⟨1, 0, 30, 70, 50⟩
      10 rfl rfl rfl rfl (by decide)⟩

/-- C8 (counterexample): on a source checkpoint without an `'iteration'`
key, `add_optimizer_state` succeeds but leaves the target `epoch` field
UNSET (it is only assigned inside the `if 'iteration' in lm_checkpoint`
block), refuting "the target checkpoint's epoch field is always set
to 1". -/
theorem epoch_not_always_set_counterexample :
    add_optimizer_state ⟨none, none, none, none⟩ true =
      .ok ⟨none, none, none, none⟩ ∧
    (⟨none, none, none, none⟩ : NewCheckpoint).epoch = none ∧
    (none : Option ℕ) ≠ some 1 :=
  ⟨rfl, rfl, by decide⟩

/-- C8 (amended): whenever `add_optimizer_state` succeeds, the source
iteration counter is copied verbatim into the target `global_step` field
(absent when the source has none), and `epoch` is set to 1 exactly when
the iteration counter is present — it is left unset otherwise. -/
theorem step_epoch_copy (lm : LMCheckpoint) (o2 : Bool) (c : NewCheckpoint)
    (h : add_optimizer_state lm o2 = .ok c) :
    c.global_step = lm.iteration ∧
      c.epoch = (if lm.iteration.isSome then some 1 else none) := by
  have hos : (stepOptimizerStates lm o2).global_step = none ∧
      (stepOptimizerStates lm o2).epoch = none := by
    rcases ho : lm.optimizer with _ | osec
    · simp [stepOptimizerStates, ho]
    · rcases hn : osec.optimizer with _ | opt <;> cases o2 <;>
        simp [stepOptimizerStates, ho, hn]
  have hc2g : (stepIteration lm
        (stepOptimizerStates lm o2)).global_step = lm.iteration ∧
      (stepIteration lm (stepOptimizerStates lm o2)).epoch =
        (if lm.iteration.isSome then some 1 else none) := by
    rcases hit : lm.iteration with _ | it <;>
      simp [stepIteration, hit, hos.1, hos.2]
  rcases hs : lm.lr_scheduler with _ | sched
  · simp only [add_optimizer_state, hs, Except.ok.injEq] at h
    rw [← h]
    exact hc2g
  · rcases hg : lm.global_batch_size with _ | gbs
    · simp only [add_optimizer_state, hs, hg] at h
      exact Except.noConfusion h
    · by_cases hz : gbs = 0
      · simp only [add_optimizer_state, hs, hg, if_pos hz] at h
        exact Except.noConfusion h
      · simp only [add_optimizer_state, hs, hg, if_neg hz] at h
        rw [except_map_eq_ok] at h
        obtain ⟨blrs, _, hcc⟩ := h
        rw [← hcc]
        exact hc2g

/-- Witness for C8 (amended): a checkpoint with `iteration = 5` maps to
`global_step = 5`, `epoch = 1`. -/
theorem step_epoch_copy_witness :
    add_optimizer_state ⟨none, some 5, none, none⟩ true =
      .ok ⟨none, some 5, some 1, none⟩ ∧
    ((⟨none, some 5, some 1, none⟩ : NewCheckpoint).global_step =
        (⟨none, some 5, none, none⟩ : LMCheckpoint).iteration ∧
      (⟨none, some 5, some 1, none⟩ : NewCheckpoint).epoch =
        (if (⟨none, some 5, none, none⟩ :
            LMCheckpoint).iteration.isSome then some 1 else none)) :=
  ⟨rfl, step_epoch_copy ⟨none, some 5, none, none⟩ true
    ⟨none, some 5, some 1, none⟩ rfl⟩

theorem allSome_replicate (q : ℚ) (n : ℕ) :
    allSome (List.replicate n (some q)) = some (List.replicate n q) := by
  induction n with
  | zero => rfl
  | succ n ih => simp [allSome, List.replicate_succ, ih]

/-- C6: for every source checkpoint with a learning-rate-scheduler
section (on the benign path: `megatron_amp_o2` default, a non-zero global
batch size, and no empty top-level optimizer section — cf. the C10
anomaly), the adapter produces a target scheduler section whose
`decay_steps`, `warmup_steps`, `last_epoch` and the derived `max_steps`
and `_step_count` equal the corresponding source step counts
integer-floor-divided by the global batch size; and if the global batch
size is absent while a scheduler section exists, the adapter fails by
propagating the error. -/
theorem scheduler_unit_conversion (lm : LMCheckpoint) :
    (∀ (sched : Sched) (gbs : ℕ), lm.lr_scheduler = some sched →
      lm.global_batch_size = some gbs → 0 < gbs →
      (∀ osec, lm.optimizer = some osec → osec.optimizer.isSome = true) →
      ∃ c, add_optimizer_state lm true = .ok c ∧
        ∃ sc, c.lr_schedulers = some [sc] ∧
          sc.decay_steps = sched.decay_steps / gbs ∧
          sc.warmup_steps = sched.warmup_steps / gbs ∧
          sc.last_epoch = sched.num_steps / gbs ∧
          sc.step_count = sched.num_steps / gbs ∧
          sc.max_steps =
            sched.decay_steps / gbs + sched.warmup_steps / gbs) ∧
    (∀ (sched : Sched) (o2 : Bool), lm.lr_scheduler = some sched →
      lm.global_batch_size = none →
      add_optimizer_state lm o2 = .error .missingGlobalBatchSize) := by
  constructor
  · intro sched gbs hs hg hgz hopt
    have hgz' : gbs ≠ 0 := by omega
    obtain ⟨blrs, hbl⟩ : ∃ blrs, stepBaseLrs lm sched
        (stepIteration lm (stepOptimizerStates lm true)) = .ok blrs := by
      rcases ho : lm.optimizer with _ | osec
      · exact ⟨([sched.max_lr], none),
          by rw [stepBaseLrs, if_neg (by simp [ho])]⟩
      · obtain ⟨opt, hop⟩ := Option.isSome_iff_exists.mp (hopt osec ho)
        have hos2 : (stepIteration lm
            (stepOptimizerStates lm true)).optimizer_states =
              some [.wrapped osec.fp32_from_fp16_params
                ⟨opt.param_groups.map
                  fun g => { g with initial_lr := some sched.max_lr }⟩] := by
          rcases hit : lm.iteration with _ | it <;>
            simp [stepIteration, stepOptimizerStates, hit, ho, hop, hs]
        refine ⟨(opt.param_groups.map fun _ => sched.max_lr,
          some (opt.param_groups.map fun g => g.lr)), ?_⟩
        rw [stepBaseLrs, if_pos (by simp [ho]), hos2]
        simp [List.map_map, Function.comp_def, allSome_map_const,
          allSome_replicate]
    have hmain : add_optimizer_state lm true =
        .ok { stepIteration lm (stepOptimizerStates lm true) with
          lr_schedulers :=
            some [schedContent sched gbs blrs.1 blrs.2] } := by
      simp only [add_optimizer_state, hs, hg, if_neg hgz']
      rw [hbl]
      rfl
    exact ⟨_, hmain, schedContent sched gbs blrs.1 blrs.2, by simp,
      rfl, rfl, rfl, rfl, rfl⟩
  · intro sched o2 hs hg
    simp [add_optimizer_state, hs, hg]

/-- Witness for C6: a checkpoint with no optimizer section, a scheduler
with decay 70, warmup 30, 50 steps taken, and global batch size 10. -/
theorem scheduler_unit_conversion_witness :
    (⟨none, none, some ⟨1, 0, 30, 70, 50⟩, some 10⟩ :
        LMCheckpoint).lr_scheduler = some ⟨1, 0, 30, 70, 50⟩ ∧
    (⟨none, none, some ⟨1, 0, 30, 70, 50⟩, some 10⟩ :
        LMCheckpoint).global_batch_size = some 10 ∧
    (0 : ℕ) < 10 ∧
    (∀ osec, (⟨none, none, some ⟨1, 0, 30, 70, 50⟩, some 10⟩ :
        LMCheckpoint).optimizer = some osec →
      osec.optimizer.isSome = true) ∧
    (∃ c, add_optimizer_state
          ⟨none, none, some ⟨1, 0, 30, 70, 50⟩, some 10⟩ true = .ok c ∧
      ∃ sc, c.lr_schedulers = some [sc] ∧
        sc.decay_steps = (⟨1, 0, 30, 70, 50⟩ : Sched).decay_steps / 10 ∧
        sc.warmup_steps = (⟨1, 0, 30, 70, 50⟩ : Sched).warmup_steps / 10 ∧
        sc.last_epoch = (⟨1, 0, 30, 70, 50⟩ : Sched).num_steps / 10 ∧
        sc.step_count = (⟨1, 0, 30, 70, 50⟩ : Sched).num_steps / 10 ∧
        sc.max_steps = (⟨1, 0, 30, 70, 50⟩ : Sched).decay_steps / 10 +
          (⟨1, 0, 30, 70, 50⟩ : Sched).warmup_steps / 10) :=
  ⟨rfl, rfl, by decide, fun _ h => Option.noConfusion h,
    (scheduler_unit_conversion
        ⟨none, none, some ⟨1, 0, 30, 70, 50⟩, some 10⟩).1
      ⟨1, 0, 30, 70, 50⟩ 10 rfl rfl (by decide)
      (fun _ h => Option.noConfusion h)⟩

/-! ### Parallel-rank path resolution
(`megatron_lm_inject_model_parallel_rank`, lines 357–376)

A file path is modelled as its list of `/`-separated segments (each a
`List Char`); `os.path.dirname` is the list without its last segment and
`os.path.basename` the last segment. -/

/-- Decimal digits of `n`, most significant first (`str(n)`). -/
def natToChars (n : ℕ) : List Char :=
  if h : n < 10 then [Char.ofNat (48 + n)]
  else natToChars (n / 10) ++ [Char.ofNat (48 + n % 10)]
termination_by n
decreasing_by exact Nat.div_lt_self (by omega) (by omega)

/-- Left-pad with `'0'` to width `w`. -/
def padZeros (w : ℕ) (l : List Char) : List Char :=
  List.replicate (w - l.length) '0' ++ l

/-- Python `f'{n:02d}'`. -/
def fmt02 (n : ℕ) : List Char := padZeros 2 (natToChars n)

/-- Python `f'{n:03d}'`. -/
def fmt03 (n : ℕ) : List Char := padZeros 3 (natToChars n)

/-- The `mp_rank_` prefix of a rank-encoded directory segment. -/
def mpPrefix : List Char := "mp_rank_".toList

/-- The `AppState` parallel-rank fields the resolver reads, passed
explicitly. -/
structure ParallelConfig where
  model_parallel_size : Option ℕ
  tensor_model_parallel_rank : ℕ
  pipeline_model_parallel_size : Option ℕ
  pipeline_model_parallel_rank : ℕ

/-- The rank-encoded directory segment inserted by the resolver
(lines 370–373): `mp_rank_{tp:02d}` when the pipeline-parallel size is
`None` or 1, else `mp_rank_{tp:02d}_{pp:03d}`. -/
def rankSegment (cfg : ParallelConfig) : List Char :=
  match cfg.pipeline_model_parallel_size with
  | none => mpPrefix ++ fmt02 cfg.tensor_model_parallel_rank
  | some pps =>
    if pps = 1 then mpPrefix ++ fmt02 cfg.tensor_model_parallel_rank
    else mpPrefix ++ fmt02 cfg.tensor_model_parallel_rank ++
      ('_' :: fmt03 cfg.pipeline_model_parallel_rank)

/-- Every character is a decimal digit. -/
def allDigits (l : List Char) : Bool := l.all Char.isDigit

/-- The part of a rank segment after `mp_rank_`: a non-empty run of
digits, optionally followed by `'_'` and another non-empty run of
digits. -/
def isRankBody (l : List Char) : Bool :=
  let ds := l.takeWhile Char.isDigit
  match l.drop ds.length with
  | [] => !ds.isEmpty
  | '_' :: tail => !ds.isEmpty && !tail.isEmpty && allDigits tail
  | _ => false

/-- Whether a path segment is a rank-encoded segment
(`mp_rank_XX` or `mp_rank_XX_YYY`). -/
def isRankSegment (seg : List Char) : Bool :=
  mpPrefix.isPrefixOf seg && isRankBody (seg.drop mpPrefix.length)

/-- Modelled from the spec: `uninject_model_parallel_rank`
(`nemo.utils.model_utils`, called on line 363 but not part of `src/`)
"must first strip any pre-existing rank segment" — it removes every
rank-encoded directory segment from the path. -/
def uninject_model_parallel_rank (filepath : List (List Char)) :
    List (List Char) :=
  filepath.filter (fun seg => !isRankSegment seg)

/-- `megatron_lm_inject_model_parallel_rank` (lines 357–376): first strip
any pre-existing rank segment, then, when the model-parallel size is set
and greater than 1, insert the rank-encoded segment between dirname and
basename; otherwise return the (stripped) path unchanged. -/
def megatron_lm_inject_model_parallel_rank (cfg : ParallelConfig)
    (filepath : List (List Char)) : List (List Char) :=
  let filepath := uninject_model_parallel_rank filepath
  match cfg.model_parallel_size with
  | some s =>
    if s > 1 then
      let dirname := filepath.dropLast
      let basename := filepath.getLastD []
      dirname ++ [rankSegment cfg, basename]
    else filepath
  | none => filepath

theorem natToChars_digits (n : ℕ) :
    allDigits (natToChars n) = true ∧ natToChars n ≠ [] := by
  induction n using Nat.strong_induction_on with
  | _ n ih =>
    rw [natToChars]
    split
    · rename_i h
      refine ⟨?_, by simp⟩
      interval_cases n <;> decide
    · rename_i h
      have hd := ih (n / 10) (Nat.div_lt_self (by omega) (by omega))
      refine ⟨?_, by simp⟩
      have hm : n % 10 < 10 := Nat.mod_lt _ (by omega)
      rw [allDigits, List.all_append]
      rw [allDigits] at hd
      rw [hd.1]
      have : ([Char.ofNat (48 + n % 10)].all Char.isDigit) = true := by
        set m := n % 10 with hmm
        clear_value m
        interval_cases m <;> decide
      rw [this]
      rfl

theorem padZeros_digits (w : ℕ) (l : List Char)
    (h : allDigits l = true) (hne : l ≠ []) :
    allDigits (padZeros w l) = true ∧ padZeros w l ≠ [] := by
  constructor
  · rw [padZeros, allDigits, List.all_append]
    rw [allDigits] at h
    rw [h, Bool.and_true]
    rw [List.all_eq_true]
    intro c hc
    rw [List.mem_replicate] at hc
    rw [hc.2]
    decide
  · rw [padZeros]
    intro hcontra
    rw [List.append_eq_nil] at hcontra
    exact hne hcontra.2

theorem fmt02_digits (n : ℕ) :
    allDigits (fmt02 n) = true ∧ fmt02 n ≠ [] :=
  padZeros_digits 2 _ (natToChars_digits n).1 (natToChars_digits n).2

theorem fmt03_digits (n : ℕ) :
    allDigits (fmt03 n) = true ∧ fmt03 n ≠ [] :=
  padZeros_digits 3 _ (natToChars_digits n).1 (natToChars_digits n).2

theorem takeWhile_all_append (p : Char → Bool) (l r : List Char)
    (h : l.all p = true) :
    (l ++ r).takeWhile p = l ++ r.takeWhile p := by
  induction l with
  | nil => simp
  | cons x xs ih =>
    rw [List.all_cons, Bool.and_eq_true] at h
    rw [List.cons_append, List.takeWhile_cons, if_pos h.1, ih h.2]
    rfl

theorem isRankBody_digits (ds : List Char) (h : allDigits ds = true)
    (hne : ds ≠ []) : isRankBody ds = true := by
  rw [isRankBody]
  have hts : ds.takeWhile Char.isDigit = ds := by
    rw [List.takeWhile_eq_self_iff]
    intro x hx
    rw [allDigits, List.all_eq_true] at h
    exact h x hx
  rw [hts, List.drop_length]
  simpa using hne

theorem isRankBody_digits_underscore (ds tail : List Char)
    (h : allDigits ds = true) (hne : ds ≠ [])
    (ht : allDigits tail = true) (htne : tail ≠ []) :
    isRankBody (ds ++ '_' :: tail) = true := by
  rw [isRankBody]
  have hts : (ds ++ '_' :: tail).takeWhile Char.isDigit = ds := by
    rw [takeWhile_all_append Char.isDigit ds _ h]
    rw [List.takeWhile_cons, if_neg (by decide)]
    simp
  rw [hts, List.drop_left]
  simp [hne, htne, ht]

theorem isRankSegment_prefix_body (body : List Char)
    (hb : isRankBody body = true) :
    isRankSegment (mpPrefix ++ body) = true := by
  have h1 : mpPrefix.isPrefixOf (mpPrefix ++ body) = true :=
    List.isPrefixOf_iff_prefix.mpr (List.prefix_append _ _)
  rw [isRankSegment, h1, List.drop_left, hb]
  rfl

theorem isRankSegment_rankSegment (cfg : ParallelConfig) :
    isRankSegment (rankSegment cfg) = true := by
  rw [rankSegment]
  split
  · exact isRankSegment_prefix_body _
      (isRankBody_digits _ (fmt02_digits _).1 (fmt02_digits _).2)
  · split
    · exact isRankSegment_prefix_body _
        (isRankBody_digits _ (fmt02_digits _).1 (fmt02_digits _).2)
    · rw [List.append_assoc]
      exact isRankSegment_prefix_body _
        (isRankBody_digits_underscore _ _ (fmt02_digits _).1
          (fmt02_digits _).2 (fmt03_digits _).1 (fmt03_digits _).2)

theorem uninject_idem (filepath : List (List Char)) :
    uninject_model_parallel_rank (uninject_model_parallel_rank filepath) =
      uninject_model_parallel_rank filepath := by
  rw [uninject_model_parallel_rank, uninject_model_parallel_rank,
    List.filter_filter]
  simp

/-- C7: the parallel-rank path resolver is idempotent: for every path and
every parallel-rank configuration, resolving an already-resolved path
yields the same result as resolving once — any pre-existing rank segment
is stripped before the rank-encoded segment is inserted. -/
theorem megatron_lm_inject_model_parallel_rank_idempotent
    (cfg : ParallelConfig) (filepath : List (List Char)) :
    megatron_lm_inject_model_parallel_rank cfg
        (megatron_lm_inject_model_parallel_rank cfg filepath) =
      megatron_lm_inject_model_parallel_rank cfg filepath := by
  rcases hms : cfg.model_parallel_size with _ | s
  · simp only [megatron_lm_inject_model_parallel_rank, hms]
    exact uninject_idem filepath
  · by_cases hs : s > 1
    · have hall : ∀ seg ∈ uninject_model_parallel_rank filepath,
          isRankSegment seg = false := by
        intro seg hseg
        rw [uninject_model_parallel_rank, List.mem_filter] at hseg
        simpa using hseg.2
      have hinj : megatron_lm_inject_model_parallel_rank cfg filepath =
          (uninject_model_parallel_rank filepath).dropLast ++
            [rankSegment cfg,
              (uninject_model_parallel_rank filepath).getLastD []] := by
        simp only [megatron_lm_inject_model_parallel_rank, hms, if_pos hs]
      have hstrip : uninject_model_parallel_rank
            ((uninject_model_parallel_rank filepath).dropLast ++
              [rankSegment cfg,
                (uninject_model_parallel_rank filepath).getLastD []]) =
          (uninject_model_parallel_rank filepath).dropLast ++
            [(uninject_model_parallel_rank filepath).getLastD []] := by
        rw [uninject_model_parallel_rank, List.filter_append]
        have hfirst : ((uninject_model_parallel_rank
              filepath).dropLast).filter (fun seg => !isRankSegment seg) =
            (uninject_model_parallel_rank filepath).dropLast := by
          rw [List.filter_eq_self]
          intro a ha
          have := hall a ((List.dropLast_sublist _).subset ha)
          simp [this]
        have hlast : isRankSegment
            ((uninject_model_parallel_rank filepath).getLastD []) =
              false := by
          rcases List.eq_nil_or_concat
              (uninject_model_parallel_rank filepath) with hnil | ⟨L, b, hc⟩
          · rw [hnil]
            decide
          · rw [hc, List.concat_eq_append, List.getLastD_concat]
            exact hall b (by rw [hc, List.concat_eq_append]; simp)
        have hlast' : isRankSegment
            ((uninject_model_parallel_rank
              filepath).getLast?.getD []) = false := by
          rw [← List.getLastD_eq_getLast?]
          exact hlast
        rw [hfirst]
        rw [List.filter_cons, List.filter_cons]
        rw [isRankSegment_rankSegment]
        simp [hlast, hlast']
      rw [hinj, megatron_lm_inject_model_parallel_rank]
      simp only [hms, if_pos hs, hstrip]
      rcases List.eq_nil_or_concat
          (uninject_model_parallel_rank filepath) with hnil | ⟨L, b, hc⟩
      · rw [hnil]
        rfl
      · rw [hc, List.concat_eq_append, List.dropLast_concat,
          List.getLastD_concat, List.dropLast_concat, List.getLastD_concat]
    · simp only [megatron_lm_inject_model_parallel_rank, hms, if_neg hs]
      exact uninject_idem filepath

end Ckpt
